import Mathlib

/-!
Verification development for the uniqueness / upsert-conflict core of a
multi-vendor e-commerce codebase.

The embedded functions are shallow translations of:
* `generateUniqueSlug` (lib/utils, the slug generator): the Prisma model
  plus field name pair is abstracted as the list of slug-field values of
  the records in the target collection; `findFirst` on `field = slug`
  is membership of the candidate in that list.
* `upsertStore` (src/queries/store.ts) and `upsertCategory`
  (queries/category): the Prisma database table is a list of records,
  `findFirst` is first-match search in list order, and `upsert` on the
  primary key replaces the matching record or appends a new one.
Errors thrown by the TypeScript code are `Except.error` with the exact
message strings; the authenticated user and the nullable payload are
`Option` arguments.
-/

namespace MVEC

/-! ### Generic first-match search (Prisma `findFirst`) -/

/-- First element of the list satisfying the predicate, in list order;
models Prisma's `findFirst` with a `where` filter. -/
def findFirst (p : α → Prop) [DecidablePred p] : List α → Option α
  | [] => none
  | x :: xs => if p x then some x else findFirst p xs

/-! ### Slug generator (`generateUniqueSlug` in lib/utils) -/

/-- Fuel-indexed version of the unbounded `while (true)` probe loop of
`generateUniqueSlug`: probe the collection for the current candidate; on a
hit, append `separator + suffix` to the current candidate, bump the suffix
and retry; on a miss return the candidate. `none` means the fuel ran out
before a free candidate was found. -/
def slugProbe (coll : List String) (separator : String) :
    Nat → String → Nat → Option String
  | 0, _, _ => none
  | fuel + 1, slug, suffix =>
    if slug ∈ coll then
      slugProbe coll separator fuel (slug ++ separator ++ toString suffix) (suffix + 1)
    else
      some slug

/-- Embedding of `generateUniqueSlug(baseSlug, model, field, separator)`:
`coll` is the list of values of `field` over the records of `model`.  A
fuel of `coll.length + 1` is provably enough (`slugProbe_terminates`), so
the `getD` default is never used. -/
def generateUniqueSlug (baseSlug : String) (coll : List String)
    (separator : String) : String :=
  (slugProbe coll separator (coll.length + 1) baseSlug 1).getD baseSlug

/-- Number of strings in the collection at least as long as `n`; the probe
measure. -/
def countGE (coll : List String) (n : Nat) : Nat :=
  (coll.filter (fun s => n ≤ s.length)).length

/-! ### Data model for stores and categories

Record fields follow the Prisma schema as used by the queries; the
relation fields and the `createdAt` / `updatedAt` timestamps that Prisma
manages itself are outside the embedded core. -/

/-- Store lifecycle status enum. Modelled from the spec §3: "status is one
of a small enumerated set (e.g., pending, active, banned)"; only `PENDING`
(the default in `upsertStore`) occurs in the sources under src/. -/
inductive StoreStatus where
  | PENDING
  | ACTIVE
  | BANNED
deriving DecidableEq, Repr

structure Store where
  id : String
  name : String
  description : String
  email : String
  phone : String
  url : String
  logo : String
  cover : String
  featured : Bool
  status : StoreStatus
  userId : String
deriving DecidableEq, Repr

structure Category where
  id : String
  name : String
  image : String
  url : String
  featured : Bool
deriving DecidableEq, Repr

/-- The authenticated caller as seen by the queries: Clerk user id and the
`privateMetadata.role` string. -/
structure ClerkUser where
  id : String
  role : String
deriving DecidableEq, Repr

/-- Client-controlled input of `upsertStore`; `featured` and `status` are
optional in the TypeScript input type. -/
structure UpsertStoreInput where
  id : String
  name : String
  description : String
  email : String
  phone : String
  url : String
  logo : String
  cover : String
  featured : Option Bool
  status : Option StoreStatus
deriving DecidableEq, Repr

/-! ### upsertStore (src/queries/store.ts) -/

/-- The `where` clause of the uniqueness probe in `upsertStore`:
`AND [ OR [name, email, phone, url], NOT id ]`. -/
def storeConflictWith (s : UpsertStoreInput) (r : Store) : Prop :=
  (r.name = s.name ∨ r.email = s.email ∨ r.phone = s.phone ∨ r.url = s.url) ∧ r.id ≠ s.id

instance (s : UpsertStoreInput) : DecidablePred (storeConflictWith s) := by
  intro r
  unfold storeConflictWith
  infer_instance

/-- Error message construction of `upsertStore` lines 72–83: fields of the
single record returned by `findFirst` are compared against the payload in
the fixed order name, email, phone, url. -/
def storeConflictMessage (ex : Store) (s : UpsertStoreInput) : String :=
  if ex.name = s.name then "A store with the same name already exists"
  else if ex.email = s.email then "A store with the same email already exists"
  else if ex.phone = s.phone then "A store with the same phone number already exists"
  else if ex.url = s.url then "A store with the same URL already exists"
  else ""

/-- The `storeData` object: client fields with `featured ?? false` and
`status ?? PENDING` defaults; `userId` is not part of it. -/
structure StoreData where
  name : String
  description : String
  email : String
  phone : String
  url : String
  logo : String
  cover : String
  featured : Bool
  status : StoreStatus
deriving DecidableEq, Repr

def mkStoreData (s : UpsertStoreInput) : StoreData :=
  { name := s.name
    description := s.description
    email := s.email
    phone := s.phone
    url := s.url
    logo := s.logo
    cover := s.cover
    featured := s.featured.getD false
    status := s.status.getD StoreStatus.PENDING }

/-- Prisma `update: storeData` on a store row: every `storeData` field is
replaced; `id` and `userId` are untouched. -/
def Store.applyUpdate (r : Store) (d : StoreData) : Store :=
  { id := r.id
    name := d.name
    description := d.description
    email := d.email
    phone := d.phone
    url := d.url
    logo := d.logo
    cover := d.cover
    featured := d.featured
    status := d.status
    userId := r.userId }

/-- Prisma `create` payload of `upsertStore`: `id`, the `storeData` fields
and the relation connect to the current user. -/
def mkStoreCreate (s : UpsertStoreInput) (u : ClerkUser) : Store :=
  { id := s.id
    name := s.name
    description := s.description
    email := s.email
    phone := s.phone
    url := s.url
    logo := s.logo
    cover := s.cover
    featured := s.featured.getD false
    status := s.status.getD StoreStatus.PENDING
    userId := u.id }

/-- Prisma `db.store.upsert({ where: { id }, update, create })` over a list
of rows: update the row whose primary key matches, else append the created
row; returns (new table, returned record). -/
def storeDbUpsert (coll : List Store) (s : UpsertStoreInput) (u : ClerkUser) :
    List Store × Store :=
  match findFirst (fun r => r.id = s.id) coll with
  | some r0 =>
      (coll.map (fun r => if r.id = s.id then r.applyUpdate (mkStoreData s) else r),
       r0.applyUpdate (mkStoreData s))
  | none =>
      (coll ++ [mkStoreCreate s u], mkStoreCreate s u)

/-- Embedding of `upsertStore`: returns the result (`Except` mirrors the
thrown errors) together with the post-state of the store table.  The
single write happens in the last step, after every check. -/
def upsertStore (user : Option ClerkUser) (store : Option UpsertStoreInput)
    (coll : List Store) : Except String Store × List Store :=
  match user with
  | none => (Except.error "Unauthenticated.", coll)
  | some u =>
    if u.role ≠ "SELLER" then
      (Except.error "Unauthorized Access: Seller Privileges Required for Entry.", coll)
    else
      match store with
      | none => (Except.error "Please provide store data.", coll)
      | some s =>
        match findFirst (storeConflictWith s) coll with
        | some ex => (Except.error (storeConflictMessage ex s), coll)
        | none =>
          let res := storeDbUpsert coll s u
          (Except.ok res.2, res.1)

/-! ### upsertCategory (queries/category) -/

/-- The `where` clause of the uniqueness probe in `upsertCategory`:
`AND [ OR [name, url], NOT id ]`. -/
def categoryConflictWith (c : Category) (r : Category) : Prop :=
  (r.name = c.name ∨ r.url = c.url) ∧ r.id ≠ c.id

instance (c : Category) : DecidablePred (categoryConflictWith c) := by
  intro r
  unfold categoryConflictWith
  infer_instance

/-- Error message construction of `upsertCategory` lines 52–59. -/
def categoryConflictMessage (ex : Category) (c : Category) : String :=
  if ex.name = c.name then "A category with the same name already exists"
  else if ex.url = c.url then "A category with the same URL already exists"
  else ""

/-- Prisma `db.category.upsert({ where: { id }, update: category,
create: category })`: the whole payload record replaces the matching row
or is appended. -/
def categoryDbUpsert (coll : List Category) (c : Category) :
    List Category × Category :=
  match findFirst (fun r => r.id = c.id) coll with
  | some _ => (coll.map (fun r => if r.id = c.id then c else r), c)
  | none => (coll ++ [c], c)

/-- Embedding of `upsertCategory`. -/
def upsertCategory (user : Option ClerkUser) (category : Option Category)
    (coll : List Category) : Except String Category × List Category :=
  match user with
  | none => (Except.error "Unauthenticated.", coll)
  | some u =>
    if u.role ≠ "ADMIN" then
      (Except.error "Unauthorized Access: Admin Privileges Required for Entry.", coll)
    else
      match category with
      | none => (Except.error "Please provide category data.", coll)
      | some c =>
        match findFirst (categoryConflictWith c) coll with
        | some ex => (Except.error (categoryConflictMessage ex c), coll)
        | none =>
          let res := categoryDbUpsert coll c
          (Except.ok res.2, res.1)

/-! ### Designated unique fields and the uniqueness invariant -/

/-- The designated unique fields of a store, in the priority order of the
error-message chain. -/
inductive StoreField where
  | name
  | email
  | phone
  | url
deriving DecidableEq, Repr

def StoreField.getS : StoreField → Store → String
  | .name, r => r.name
  | .email, r => r.email
  | .phone, r => r.phone
  | .url, r => r.url

def StoreField.getI : StoreField → UpsertStoreInput → String
  | .name, s => s.name
  | .email, s => s.email
  | .phone, s => s.phone
  | .url, s => s.url

def StoreField.msg : StoreField → String
  | .name => "A store with the same name already exists"
  | .email => "A store with the same email already exists"
  | .phone => "A store with the same phone number already exists"
  | .url => "A store with the same URL already exists"

def StoreField.rank : StoreField → Nat
  | .name => 0
  | .email => 1
  | .phone => 2
  | .url => 3

/-- The designated unique fields of a category, in priority order. -/
inductive CategoryField where
  | name
  | url
deriving DecidableEq, Repr

def CategoryField.get : CategoryField → Category → String
  | .name, r => r.name
  | .url, r => r.url

def CategoryField.msg : CategoryField → String
  | .name => "A category with the same name already exists"
  | .url => "A category with the same URL already exists"

def CategoryField.rank : CategoryField → Nat
  | .name => 0
  | .url => 1

/-- Two store rows disagree on every designated unique field. -/
def storeDistinct (a b : Store) : Prop :=
  a.name ≠ b.name ∧ a.email ≠ b.email ∧ a.phone ≠ b.phone ∧ a.url ≠ b.url

instance (a b : Store) : Decidable (storeDistinct a b) := by
  unfold storeDistinct
  infer_instance

/-- Well-formed store table: primary keys are distinct, and no two rows
with different ids share any designated unique field. -/
def StoreWf (coll : List Store) : Prop :=
  (coll.map Store.id).Nodup ∧
    ∀ a ∈ coll, ∀ b ∈ coll, a.id ≠ b.id → storeDistinct a b

instance (coll : List Store) : Decidable (StoreWf coll) := by
  unfold StoreWf
  infer_instance

/-- Two category rows disagree on every designated unique field. -/
def categoryDistinct (a b : Category) : Prop :=
  a.name ≠ b.name ∧ a.url ≠ b.url

instance (a b : Category) : Decidable (categoryDistinct a b) := by
  unfold categoryDistinct
  infer_instance

/-- Well-formed category table. -/
def CategoryWf (coll : List Category) : Prop :=
  (coll.map Category.id).Nodup ∧
    ∀ a ∈ coll, ∀ b ∈ coll, a.id ≠ b.id → categoryDistinct a b

instance (coll : List Category) : Decidable (CategoryWf coll) := by
  unfold CategoryWf
  infer_instance

/-! ### Concrete fixtures used by witnesses and counterexamples -/

def seller : ClerkUser := { id := "u1", role := "SELLER" }

def adminUser : ClerkUser := { id := "u2", role := "ADMIN" }

def storeA : Store :=
  { id := "sA", name := "Alpha", description := "dA", email := "a@x.com"
    phone := "111", url := "alpha", logo := "lA", cover := "cA"
    featured := false, status := StoreStatus.ACTIVE, userId := "uA" }

def storeB : Store :=
  { id := "sB", name := "Beta", description := "dB", email := "b@x.com"
    phone := "222", url := "beta", logo := "lB", cover := "cB"
    featured := true, status := StoreStatus.PENDING, userId := "uB" }

/-- Payload colliding on `email` with `storeA` (the first record) and on
the higher-priority `name` with `storeB` (the second record). -/
def payloadCross : UpsertStoreInput :=
  { id := "sNew", name := "Beta", description := "d", email := "a@x.com"
    phone := "999", url := "zzz", logo := "l", cover := "c"
    featured := none, status := none }

/-- Payload with `storeA`'s id and unique fields, omitted `status` and
`featured`. -/
def payloadSelfA : UpsertStoreInput :=
  { id := "sA", name := "Alpha", description := "d2", email := "a@x.com"
    phone := "111", url := "alpha", logo := "l2", cover := "c2"
    featured := none, status := none }

/-- Payload writing `storeB`'s id with `storeA`'s name. -/
def payloadBTakesAName : UpsertStoreInput :=
  { id := "sB", name := "Alpha", description := "dB", email := "b@x.com"
    phone := "222", url := "beta", logo := "lB", cover := "cB"
    featured := none, status := none }

/-- Payload with an id and unique fields absent from `[storeA]`. -/
def payloadNew : UpsertStoreInput :=
  { id := "sC", name := "Gamma", description := "dC", email := "g@x.com"
    phone := "333", url := "gamma", logo := "lC", cover := "cC"
    featured := none, status := none }

def catA : Category :=
  { id := "c1", name := "Shoes", image := "i1", url := "shoes", featured := false }

/-- An edit of `catA` keeping its id, changing every other field. -/
def catAEdit : Category :=
  { id := "c1", name := "Sneakers", image := "i3", url := "sneakers", featured := true }

def catB : Category :=
  { id := "c2", name := "Boots", image := "i2", url := "boots", featured := false }

/-- Category payload writing `catB`'s id with `catA`'s url. -/
def catBTakesAUrl : Category :=
  { id := "c2", name := "Boots", image := "i2", url := "shoes", featured := false }

/-! ## Theorems -/

/-! ### findFirst lemmas -/

theorem findFirst_eq_none {p : α → Prop} [DecidablePred p] {l : List α} :
    findFirst p l = none ↔ ∀ x ∈ l, ¬ p x := by
  induction l with
  | nil => simp [findFirst]
  | cons x xs ih =>
    by_cases hx : p x <;> simp [findFirst, hx, ih]

theorem findFirst_some {p : α → Prop} [DecidablePred p] {l : List α} {a : α}
    (h : findFirst p l = some a) : a ∈ l ∧ p a := by
  induction l with
  | nil => simp [findFirst] at h
  | cons x xs ih =>
    by_cases hx : p x
    · simp [findFirst, hx] at h
      subst h; exact ⟨List.mem_cons_self x xs, hx⟩
    · simp [findFirst, hx] at h
      rcases ih h with ⟨hm, hp⟩
      exact ⟨List.mem_cons_of_mem x hm, hp⟩

theorem findFirst_eq_some_of_unique {p : α → Prop} [DecidablePred p] {l : List α} {a : α}
    (ha : a ∈ l) (hpa : p a) (huniq : ∀ x ∈ l, p x → x = a) :
    findFirst p l = some a := by
  induction l with
  | nil => cases ha
  | cons x xs ih =>
    by_cases hx : p x
    · have hxa : x = a := huniq x (List.mem_cons_self x xs) hx
      subst hxa
      simp [findFirst, hx]
    · have hax : a ∈ xs := by
        rcases List.mem_cons.mp ha with h | h
        · exact absurd (h ▸ hpa) hx
        · exact h
      simp [findFirst, hx]
      exact ih hax (fun y hy hpy => huniq y (List.mem_cons_of_mem x hy) hpy)

/-! ### Slug generator lemmas -/

/-- Decimal representation of a natural number is never the empty string:
`Nat.toDigitsCore` never shrinks its accumulator. -/
theorem toDigitsCore_length_ge (b : Nat) :
    ∀ (fuel n : Nat) (ds : List Char), ds.length ≤ (Nat.toDigitsCore b fuel n ds).length := by
  intro fuel
  induction fuel with
  | zero => intro n ds; simp [Nat.toDigitsCore]
  | succ f ih =>
    intro n ds
    simp only [Nat.toDigitsCore]
    by_cases h : n / b = 0
    · simp [h]
    · simp only [h, if_false]
      calc ds.length ≤ (Nat.digitChar (n % b) :: ds).length := by simp
        _ ≤ _ := ih (n / b) (Nat.digitChar (n % b) :: ds)

theorem repr_length_pos (n : Nat) : 0 < (Nat.repr n).length := by
  show 0 < ((Nat.toDigits 10 n).asString).length
  show 0 < (Nat.toDigitsCore 10 (n + 1) n []).length
  simp only [Nat.toDigitsCore]
  by_cases h : n / 10 = 0
  · simp [h]
  · simp only [h, if_false]
    calc 0 < (Nat.digitChar (n % 10) :: []).length := by simp
      _ ≤ _ := toDigitsCore_length_ge 10 n (n / 10) _

theorem filter_length_le_of_imp {p q : α → Bool} {l : List α}
    (h : ∀ a ∈ l, q a = true → p a = true) :
    (l.filter q).length ≤ (l.filter p).length := by
  induction l with
  | nil => simp
  | cons x xs ih =>
    have hx := h x (List.mem_cons_self x xs)
    have ih' := ih (fun a ha => h a (List.mem_cons_of_mem x ha))
    by_cases hq : q x = true
    · have hp := hx hq
      simp [List.filter_cons, hq, hp]
      omega
    · have hq' : q x = false := by simpa using hq
      by_cases hp : p x = true
      · simp [List.filter_cons, hq', hp]
        omega
      · have hp' : p x = false := by simpa using hp
        simpa [List.filter_cons, hq', hp'] using ih'

theorem filter_length_lt_of_imp {p q : α → Bool} {l : List α} {a : α}
    (h : ∀ x ∈ l, q x = true → p x = true)
    (ha : a ∈ l) (hpa : p a = true) (hqa : q a = false) :
    (l.filter q).length < (l.filter p).length := by
  induction l with
  | nil => cases ha
  | cons x xs ih =>
    have htail : ∀ y ∈ xs, q y = true → p y = true :=
      fun y hy => h y (List.mem_cons_of_mem x hy)
    rcases List.mem_cons.mp ha with rfl | hmem
    · have hle := filter_length_le_of_imp htail
      simp [List.filter_cons, hqa, hpa]
      omega
    · by_cases hq : q x = true
      · have hp := h x (List.mem_cons_self x xs) hq
        have := ih htail hmem
        simp [List.filter_cons, hq, hp]
        omega
      · have hq' : q x = false := by simpa using hq
        have := ih htail hmem
        by_cases hp : p x = true
        · simp [List.filter_cons, hq', hp]
          omega
        · have hp' : p x = false := by simpa using hp
          simpa [List.filter_cons, hq', hp'] using this

theorem countGE_append_lt {coll : List String} {slug : String} (hmem : slug ∈ coll)
    (sep : String) (suffix : Nat) :
    countGE coll (slug ++ sep ++ toString suffix).length < countGE coll slug.length := by
  have hgrow : slug.length < (slug ++ sep ++ toString suffix).length := by
    have h1 : (slug ++ sep ++ toString suffix).length
        = slug.length + sep.length + (toString suffix).length := by
      simp [String.length_append]
    have h2 : 0 < (toString suffix).length := repr_length_pos suffix
    omega
  apply filter_length_lt_of_imp (a := slug)
  · intro x _ hx
    simp only [decide_eq_true_eq] at hx ⊢
    omega
  · exact hmem
  · simp
  · simp only [decide_eq_false_iff_not]
    omega

/-- With fuel exceeding the measure, the probe loop reaches a candidate
absent from the collection. -/
theorem slugProbe_some_of_fuel (coll : List String) (sep : String) :
    ∀ (fuel : Nat) (slug : String) (suffix : Nat),
      countGE coll slug.length < fuel →
      ∃ s, slugProbe coll sep fuel slug suffix = some s ∧ s ∉ coll := by
  intro fuel
  induction fuel with
  | zero => intro slug suffix h; omega
  | succ f ih =>
    intro slug suffix h
    by_cases hmem : slug ∈ coll
    · have hlt := countGE_append_lt hmem sep suffix
      have hfuel : countGE coll (slug ++ sep ++ toString suffix).length < f := by omega
      rcases ih (slug ++ sep ++ toString suffix) (suffix + 1) hfuel with ⟨s, hs, hns⟩
      exact ⟨s, by simpa [slugProbe, hmem] using hs, hns⟩
    · exact ⟨slug, by simp [slugProbe, hmem], hmem⟩

theorem countGE_le_length (coll : List String) (n : Nat) :
    countGE coll n ≤ coll.length :=
  List.length_filter_le _ coll

/-- The default fuel `coll.length + 1` always suffices. -/
theorem slugProbe_terminates (baseSlug sep : String) (coll : List String) :
    ∃ s, slugProbe coll sep (coll.length + 1) baseSlug 1 = some s ∧ s ∉ coll := by
  apply slugProbe_some_of_fuel
  have := countGE_le_length coll baseSlug.length
  omega

theorem generateUniqueSlug_not_mem (baseSlug sep : String) (coll : List String) :
    generateUniqueSlug baseSlug coll sep ∉ coll := by
  rcases slugProbe_terminates baseSlug sep coll with ⟨s, hs, hns⟩
  simpa [generateUniqueSlug, hs] using hns

theorem generateUniqueSlug_of_not_mem {baseSlug : String} {coll : List String}
    (sep : String) (h : baseSlug ∉ coll) :
    generateUniqueSlug baseSlug coll sep = baseSlug := by
  unfold generateUniqueSlug slugProbe
  simp [h]

/-! ### Field-indexed helper lemmas -/

theorem storeDistinct_field {a b : Store} (h : storeDistinct a b) (f : StoreField) :
    StoreField.getS f a ≠ StoreField.getS f b := by
  cases f
  · exact h.1
  · exact h.2.1
  · exact h.2.2.1
  · exact h.2.2.2

theorem categoryDistinct_field {a b : Category} (h : categoryDistinct a b)
    (f : CategoryField) : CategoryField.get f a ≠ CategoryField.get f b := by
  cases f
  · exact h.1
  · exact h.2

theorem store_or_of_field {r : Store} {i : UpsertStoreInput} {f : StoreField}
    (h : StoreField.getS f r = StoreField.getI f i) :
    r.name = i.name ∨ r.email = i.email ∨ r.phone = i.phone ∨ r.url = i.url := by
  cases f
  · exact Or.inl h
  · exact Or.inr (Or.inl h)
  · exact Or.inr (Or.inr (Or.inl h))
  · exact Or.inr (Or.inr (Or.inr h))

theorem store_field_of_or {r : Store} {i : UpsertStoreInput}
    (h : r.name = i.name ∨ r.email = i.email ∨ r.phone = i.phone ∨ r.url = i.url) :
    ∃ f, StoreField.getS f r = StoreField.getI f i := by
  rcases h with h | h | h | h
  · exact ⟨StoreField.name, h⟩
  · exact ⟨StoreField.email, h⟩
  · exact ⟨StoreField.phone, h⟩
  · exact ⟨StoreField.url, h⟩

theorem category_or_of_field {r : Category} {c : Category} {f : CategoryField}
    (h : CategoryField.get f r = CategoryField.get f c) :
    r.name = c.name ∨ r.url = c.url := by
  cases f
  · exact Or.inl h
  · exact Or.inr h

theorem category_field_of_or {r : Category} {c : Category}
    (h : r.name = c.name ∨ r.url = c.url) :
    ∃ f, CategoryField.get f r = CategoryField.get f c := by
  rcases h with h | h
  · exact ⟨CategoryField.name, h⟩
  · exact ⟨CategoryField.url, h⟩

/-- If the payload takes exactly field `f` from `A` and every other unique
field from `B`, the first conflicting record is `A`. -/
theorem storeConflict_unique_match {coll : List Store} {i : UpsertStoreInput}
    {A B : Store} {f : StoreField}
    (hwf : StoreWf coll) (hA : A ∈ coll) (hB : B ∈ coll) (hABid : A.id ≠ B.id)
    (hid : i.id = B.id)
    (hfA : StoreField.getI f i = StoreField.getS f A)
    (hiB : ∀ g : StoreField, g ≠ f → StoreField.getI g i = StoreField.getS g B) :
    findFirst (storeConflictWith i) coll = some A := by
  apply findFirst_eq_some_of_unique hA
  · exact ⟨store_or_of_field hfA.symm, by rw [hid]; exact hABid⟩
  · intro x hx hpx
    rcases hpx with ⟨hor, hxid⟩
    have hxB : x.id ≠ B.id := by rw [← hid]; exact hxid
    rcases store_field_of_or hor with ⟨g, hg⟩
    by_cases hgf : g = f
    · subst hgf
      by_cases hxA : x.id = A.id
      · exact List.inj_on_of_nodup_map hwf.1 hx hA hxA
      · have hdist := hwf.2 x hx A hA hxA
        exact absurd (hg.trans hfA) (storeDistinct_field hdist g)
    · have h2 : StoreField.getS g x = StoreField.getS g B := hg.trans (hiB g hgf)
      have hdist := hwf.2 x hx B hB hxB
      exact absurd h2 (storeDistinct_field hdist g)

theorem categoryConflict_unique_match {coll : List Category} {c : Category}
    {A B : Category} {f : CategoryField}
    (hwf : CategoryWf coll) (hA : A ∈ coll) (hB : B ∈ coll) (hABid : A.id ≠ B.id)
    (hid : c.id = B.id)
    (hfA : CategoryField.get f c = CategoryField.get f A)
    (hiB : ∀ g : CategoryField, g ≠ f → CategoryField.get g c = CategoryField.get g B) :
    findFirst (categoryConflictWith c) coll = some A := by
  apply findFirst_eq_some_of_unique hA
  · exact ⟨category_or_of_field hfA.symm, by rw [hid]; exact hABid⟩
  · intro x hx hpx
    rcases hpx with ⟨hor, hxid⟩
    have hxB : x.id ≠ B.id := by rw [← hid]; exact hxid
    rcases category_field_of_or hor with ⟨g, hg⟩
    by_cases hgf : g = f
    · subst hgf
      by_cases hxA : x.id = A.id
      · exact List.inj_on_of_nodup_map hwf.1 hx hA hxA
      · have hdist := hwf.2 x hx A hA hxA
        exact absurd (hg.trans hfA) (categoryDistinct_field hdist g)
    · have h2 : CategoryField.get g x = CategoryField.get g B := hg.trans (hiB g hgf)
      have hdist := hwf.2 x hx B hB hxB
      exact absurd h2 (categoryDistinct_field hdist g)

/-- When the found record collides with the payload exactly on field `f`
(the other unique fields come from a record distinct from it), the error
message of `upsertStore` names `f`. -/
theorem storeConflictMessage_single {A B : Store} {i : UpsertStoreInput}
    {f : StoreField}
    (hAB : storeDistinct A B)
    (hiB : ∀ g : StoreField, g ≠ f → StoreField.getI g i = StoreField.getS g B)
    (hfA : StoreField.getI f i = StoreField.getS f A) :
    storeConflictMessage A i = StoreField.msg f := by
  cases f with
  | name =>
    have h : A.name = i.name := hfA.symm
    simp [storeConflictMessage, StoreField.msg, h]
  | email =>
    have h1 : i.name = B.name := hiB StoreField.name (by decide)
    have hn : A.name ≠ i.name := by rw [h1]; exact hAB.1
    have he : A.email = i.email := hfA.symm
    simp [storeConflictMessage, StoreField.msg, hn, he]
  | phone =>
    have h1 : i.name = B.name := hiB StoreField.name (by decide)
    have h2 : i.email = B.email := hiB StoreField.email (by decide)
    have hn : A.name ≠ i.name := by rw [h1]; exact hAB.1
    have he : A.email ≠ i.email := by rw [h2]; exact hAB.2.1
    have hp : A.phone = i.phone := hfA.symm
    simp [storeConflictMessage, StoreField.msg, hn, he, hp]
  | url =>
    have h1 : i.name = B.name := hiB StoreField.name (by decide)
    have h2 : i.email = B.email := hiB StoreField.email (by decide)
    have h3 : i.phone = B.phone := hiB StoreField.phone (by decide)
    have hn : A.name ≠ i.name := by rw [h1]; exact hAB.1
    have he : A.email ≠ i.email := by rw [h2]; exact hAB.2.1
    have hp : A.phone ≠ i.phone := by rw [h3]; exact hAB.2.2.1
    have hu : A.url = i.url := hfA.symm
    simp [storeConflictMessage, StoreField.msg, hn, he, hp, hu]

theorem categoryConflictMessage_single {A B : Category} {c : Category}
    {f : CategoryField}
    (hAB : categoryDistinct A B)
    (hiB : ∀ g : CategoryField, g ≠ f → CategoryField.get g c = CategoryField.get g B)
    (hfA : CategoryField.get f c = CategoryField.get f A) :
    categoryConflictMessage A c = CategoryField.msg f := by
  cases f with
  | name =>
    have h : A.name = c.name := hfA.symm
    simp [categoryConflictMessage, CategoryField.msg, h]
  | url =>
    have h1 : c.name = B.name := hiB CategoryField.name (by decide)
    have hn : A.name ≠ c.name := by rw [h1]; exact hAB.1
    have hu : A.url = c.url := hfA.symm
    simp [categoryConflictMessage, CategoryField.msg, hn, hu]

/-! ### Claim theorems -/

/-- C1: on a collection whose slug field holds exactly "widget" and
"widget-1", `generateUniqueSlug "widget"` with the default separator does
NOT return "widget-2": the loop appends each new suffix to the current
candidate instead of to the base slug, so the second collision produces
"widget-1-2".  This contradicts the function's own doc comment ("If
\"my-product-1\" also exists, returns \"my-product-2\""), so the claim is
right and the code is wrong. -/
theorem generateUniqueSlug_suffix_accumulates_eval :
    generateUniqueSlug "widget" ["widget", "widget-1"] "-" = "widget-1-2" ∧
      "widget-1-2" ≠ "widget-2" := by
  constructor
  · rfl
  · decide

/-- C5: the slug returned by `generateUniqueSlug` never matches the slug
field of any record of the collection, and when the base slug itself has
no match it is returned unchanged. -/
theorem generateUniqueSlug_unique_at_generation
    (baseSlug sep : String) (coll : List String) :
    generateUniqueSlug baseSlug coll sep ∉ coll ∧
      (baseSlug ∉ coll → generateUniqueSlug baseSlug coll sep = baseSlug) :=
  ⟨generateUniqueSlug_not_mem baseSlug sep coll,
   fun h => generateUniqueSlug_of_not_mem sep h⟩

theorem generateUniqueSlug_unique_at_generation_witness :
    generateUniqueSlug "slug" ["widget"] "-" ∉ ["widget"] ∧
      generateUniqueSlug "slug" ["widget"] "-" = "slug" :=
  ⟨(generateUniqueSlug_unique_at_generation "slug" "-" ["widget"]).1,
   (generateUniqueSlug_unique_at_generation "slug" "-" ["widget"]).2 (by decide)⟩

/-- C6: for every base slug, separator and finite collection the probe
loop of `generateUniqueSlug` terminates: within `coll.length + 1` probes
it reaches a candidate matching no record of the collection. -/
theorem generateUniqueSlug_terminates (baseSlug sep : String) (coll : List String) :
    ∃ s, slugProbe coll sep (coll.length + 1) baseSlug 1 = some s ∧ s ∉ coll :=
  slugProbe_terminates baseSlug sep coll

/-- C4: on a collection in which no two records with different ids share a
designated unique field, every successful `upsertStore` / `upsertCategory`
call leaves a collection that still satisfies that invariant. -/
theorem upsert_preserves_unique_field_invariant :
    (∀ (u : Option ClerkUser) (i : Option UpsertStoreInput) (coll : List Store)
        (rec : Store),
      StoreWf coll → (upsertStore u i coll).1 = Except.ok rec →
      StoreWf (upsertStore u i coll).2) ∧
    (∀ (u : Option ClerkUser) (c : Option Category) (coll : List Category)
        (rec : Category),
      CategoryWf coll → (upsertCategory u c coll).1 = Except.ok rec →
      CategoryWf (upsertCategory u c coll).2) := by
  constructor
  · intro u i coll rec hwf hok
    cases u with
    | none => simp [upsertStore] at hok
    | some u' =>
      by_cases hrole : u'.role = "SELLER"
      · cases i with
        | none => simp [upsertStore, hrole] at hok
        | some s =>
          cases hf : findFirst (storeConflictWith s) coll with
          | some ex => simp [upsertStore, hrole, hf] at hok
          | none =>
            have hpost : (upsertStore (some u') (some s) coll).2
                = (storeDbUpsert coll s u').1 := by
              simp [upsertStore, hrole, hf]
            rw [hpost]
            have hnc := findFirst_eq_none.mp hf
            have hsafe : ∀ x ∈ coll, x.id ≠ s.id →
                x.name ≠ s.name ∧ x.email ≠ s.email ∧ x.phone ≠ s.phone ∧ x.url ≠ s.url := by
              intro x hx hxid
              exact ⟨fun h => hnc x hx ⟨Or.inl h, hxid⟩,
                fun h => hnc x hx ⟨Or.inr (Or.inl h), hxid⟩,
                fun h => hnc x hx ⟨Or.inr (Or.inr (Or.inl h)), hxid⟩,
                fun h => hnc x hx ⟨Or.inr (Or.inr (Or.inr h)), hxid⟩⟩
            cases hid : findFirst (fun r : Store => r.id = s.id) coll with
            | some r0 =>
              simp only [storeDbUpsert, hid]
              constructor
              · rw [List.map_map]
                have : coll.map
                    (Store.id ∘ fun r =>
                      if r.id = s.id then r.applyUpdate (mkStoreData s) else r)
                    = coll.map Store.id := by
                  apply List.map_congr_left
                  intro a _
                  by_cases h : a.id = s.id <;> simp [h, Store.applyUpdate]
                rw [this]
                exact hwf.1
              · intro a' ha' b' hb' hne
                rcases List.mem_map.mp ha' with ⟨a, ha, rfl⟩
                rcases List.mem_map.mp hb' with ⟨b, hb, rfl⟩
                by_cases hA : a.id = s.id <;> by_cases hB : b.id = s.id
                · exfalso
                  apply hne
                  simp [hA, hB, Store.applyUpdate]
                · have hdb := hsafe b hb hB
                  rw [if_pos hA, if_neg hB]
                  exact ⟨fun h => hdb.1 h.symm, fun h => hdb.2.1 h.symm,
                    fun h => hdb.2.2.1 h.symm, fun h => hdb.2.2.2 h.symm⟩
                · have hda := hsafe a ha hA
                  rw [if_neg hA, if_pos hB]
                  exact ⟨hda.1, hda.2.1, hda.2.2.1, hda.2.2.2⟩
                · rw [if_neg hA, if_neg hB]
                  rw [if_neg hA, if_neg hB] at hne
                  exact hwf.2 a ha b hb hne
            | none =>
              have habsent : ∀ r ∈ coll, r.id ≠ s.id := by
                intro r hr
                exact findFirst_eq_none.mp hid r hr
              simp only [storeDbUpsert, hid]
              constructor
              · simp only [List.map_append, List.map_cons, List.map_nil]
                rw [List.nodup_append]
                refine ⟨hwf.1, List.nodup_singleton _, ?_⟩
                intro x hx hx2
                simp only [mkStoreCreate, List.mem_singleton] at hx2
                rcases List.mem_map.mp hx with ⟨r, hr, hrid⟩
                exact habsent r hr (by rw [← hrid] at hx2; exact hx2)
              · intro a ha b hb hne
                rcases List.mem_append.mp ha with ha' | ha' <;>
                  rcases List.mem_append.mp hb with hb' | hb'
                · exact hwf.2 a ha' b hb' hne
                · have hda := hsafe a ha' (habsent a ha')
                  have hbeq : b = mkStoreCreate s u' := List.mem_singleton.mp hb'
                  subst hbeq
                  exact ⟨fun h => hda.1 (by simpa [mkStoreCreate] using h),
                    fun h => hda.2.1 (by simpa [mkStoreCreate] using h),
                    fun h => hda.2.2.1 (by simpa [mkStoreCreate] using h),
                    fun h => hda.2.2.2 (by simpa [mkStoreCreate] using h)⟩
                · have hdb := hsafe b hb' (habsent b hb')
                  have haeq : a = mkStoreCreate s u' := List.mem_singleton.mp ha'
                  subst haeq
                  exact ⟨fun h => hdb.1 (by simpa [mkStoreCreate] using h.symm),
                    fun h => hdb.2.1 (by simpa [mkStoreCreate] using h.symm),
                    fun h => hdb.2.2.1 (by simpa [mkStoreCreate] using h.symm),
                    fun h => hdb.2.2.2 (by simpa [mkStoreCreate] using h.symm)⟩
                · have haeq : a = mkStoreCreate s u' := List.mem_singleton.mp ha'
                  have hbeq : b = mkStoreCreate s u' := List.mem_singleton.mp hb'
                  subst haeq
                  subst hbeq
                  exact absurd rfl hne
      · simp [upsertStore, hrole] at hok
  · intro u c coll rec hwf hok
    cases u with
    | none => simp [upsertCategory] at hok
    | some u' =>
      by_cases hrole : u'.role = "ADMIN"
      · cases c with
        | none => simp [upsertCategory, hrole] at hok
        | some c' =>
          cases hf : findFirst (categoryConflictWith c') coll with
          | some ex => simp [upsertCategory, hrole, hf] at hok
          | none =>
            have hpost : (upsertCategory (some u') (some c') coll).2
                = (categoryDbUpsert coll c').1 := by
              simp [upsertCategory, hrole, hf]
            rw [hpost]
            have hnc := findFirst_eq_none.mp hf
            have hsafe : ∀ x ∈ coll, x.id ≠ c'.id →
                x.name ≠ c'.name ∧ x.url ≠ c'.url := by
              intro x hx hxid
              exact ⟨fun h => hnc x hx ⟨Or.inl h, hxid⟩,
                fun h => hnc x hx ⟨Or.inr h, hxid⟩⟩
            cases hid : findFirst (fun r : Category => r.id = c'.id) coll with
            | some r0 =>
              have hr0 := findFirst_some hid
              simp only [categoryDbUpsert, hid]
              constructor
              · rw [List.map_map]
                have : coll.map (Category.id ∘ fun r => if r.id = c'.id then c' else r)
                    = coll.map Category.id := by
                  apply List.map_congr_left
                  intro a _
                  by_cases h : a.id = c'.id <;> simp [h]
                rw [this]
                exact hwf.1
              · intro a' ha' b' hb' hne
                rcases List.mem_map.mp ha' with ⟨a, ha, rfl⟩
                rcases List.mem_map.mp hb' with ⟨b, hb, rfl⟩
                by_cases hA : a.id = c'.id <;> by_cases hB : b.id = c'.id
                · exfalso
                  apply hne
                  simp [hA, hB]
                · have hdb := hsafe b hb hB
                  rw [if_pos hA, if_neg hB]
                  exact ⟨fun h => hdb.1 h.symm, fun h => hdb.2 h.symm⟩
                · have hda := hsafe a ha hA
                  rw [if_neg hA, if_pos hB]
                  exact ⟨hda.1, hda.2⟩
                · rw [if_neg hA, if_neg hB]
                  rw [if_neg hA, if_neg hB] at hne
                  exact hwf.2 a ha b hb hne
            | none =>
              have habsent : ∀ r ∈ coll, r.id ≠ c'.id := by
                intro r hr
                exact findFirst_eq_none.mp hid r hr
              simp only [categoryDbUpsert, hid]
              constructor
              · simp only [List.map_append, List.map_cons, List.map_nil]
                rw [List.nodup_append]
                refine ⟨hwf.1, List.nodup_singleton _, ?_⟩
                intro x hx hx2
                simp only [List.mem_singleton] at hx2
                rcases List.mem_map.mp hx with ⟨r, hr, hrid⟩
                exact habsent r hr (by rw [← hrid] at hx2; exact hx2)
              · intro a ha b hb hne
                rcases List.mem_append.mp ha with ha' | ha' <;>
                  rcases List.mem_append.mp hb with hb' | hb'
                · exact hwf.2 a ha' b hb' hne
                · have hda := hsafe a ha' (habsent a ha')
                  have hbeq : b = c' := List.mem_singleton.mp hb'
                  subst hbeq
                  exact hda
                · have hdb := hsafe b hb' (habsent b hb')
                  have haeq : a = c' := List.mem_singleton.mp ha'
                  subst haeq
                  exact ⟨fun h => hdb.1 h.symm, fun h => hdb.2 h.symm⟩
                · have haeq : a = c' := List.mem_singleton.mp ha'
                  have hbeq : b = c' := List.mem_singleton.mp hb'
                  subst haeq
                  subst hbeq
                  exact absurd rfl hne
      · simp [upsertCategory, hrole] at hok

theorem upsert_preserves_unique_field_invariant_witness :
    StoreWf (upsertStore (some seller) (some payloadNew) [storeA]).2 ∧
      CategoryWf (upsertCategory (some adminUser) (some catAEdit) [catA, catB]).2 :=
  ⟨upsert_preserves_unique_field_invariant.1 (some seller) (some payloadNew)
      [storeA] (mkStoreCreate payloadNew seller) (by decide) rfl,
   upsert_preserves_unique_field_invariant.2 (some adminUser) (some catAEdit)
      [catA, catB] catAEdit (by decide) rfl⟩

/-- C8: on a well-formed collection, writing record `B`'s id with one
designated unique field taken from a distinct record `A` (the rest kept as
`B`'s) raises a conflict error whose message names that field — for stores
(name, email, phone, url) and categories (name, url) alike. -/
theorem upsert_cross_record_conflict_names_field :
    (∀ (u : ClerkUser) (i : UpsertStoreInput) (coll : List Store) (A B : Store)
        (f : StoreField),
      u.role = "SELLER" → StoreWf coll → A ∈ coll → B ∈ coll → A.id ≠ B.id →
      i.id = B.id → StoreField.getI f i = StoreField.getS f A →
      (∀ g : StoreField, g ≠ f → StoreField.getI g i = StoreField.getS g B) →
      (upsertStore (some u) (some i) coll).1 = Except.error (StoreField.msg f)) ∧
    (∀ (u : ClerkUser) (c : Category) (coll : List Category) (A B : Category)
        (f : CategoryField),
      u.role = "ADMIN" → CategoryWf coll → A ∈ coll → B ∈ coll → A.id ≠ B.id →
      c.id = B.id → CategoryField.get f c = CategoryField.get f A →
      (∀ g : CategoryField, g ≠ f → CategoryField.get g c = CategoryField.get g B) →
      (upsertCategory (some u) (some c) coll).1
        = Except.error (CategoryField.msg f)) := by
  constructor
  · intro u i coll A B f hrole hwf hA hB hABid hid hfA hiB
    have hfind := storeConflict_unique_match hwf hA hB hABid hid hfA hiB
    have hmsg := storeConflictMessage_single (hwf.2 A hA B hB hABid) hiB hfA
    simp [upsertStore, hrole, hfind, hmsg]
  · intro u c coll A B f hrole hwf hA hB hABid hid hfA hiB
    have hfind := categoryConflict_unique_match hwf hA hB hABid hid hfA hiB
    have hmsg := categoryConflictMessage_single (hwf.2 A hA B hB hABid) hiB hfA
    simp [upsertCategory, hrole, hfind, hmsg]

theorem upsert_cross_record_conflict_names_field_witness :
    (upsertStore (some seller) (some payloadBTakesAName) [storeA, storeB]).1
        = Except.error (StoreField.msg StoreField.name) ∧
      (upsertCategory (some adminUser) (some catBTakesAUrl) [catA, catB]).1
        = Except.error (CategoryField.msg CategoryField.url) :=
  ⟨upsert_cross_record_conflict_names_field.1 seller payloadBTakesAName
      [storeA, storeB] storeA storeB StoreField.name rfl (by decide) (by decide)
      (by decide) (by decide) rfl rfl
      (by
        intro g hg
        cases g
        · exact absurd rfl hg
        · rfl
        · rfl
        · rfl),
   upsert_cross_record_conflict_names_field.2 adminUser catBTakesAUrl
      [catA, catB] catA catB CategoryField.url rfl (by decide) (by decide)
      (by decide) (by decide) rfl rfl
      (by
        intro g hg
        cases g
        · rfl
        · exact absurd rfl hg)⟩

/-- C3 counterexample: the payload collides on `email` with the first
record and on the higher-priority `name` field with the second record; the
raised error names `email`, not `name`, so the reported field is not the
highest-priority colliding field across records. -/
theorem store_conflict_priority_counterexample :
    payloadCross.name = storeB.name ∧ storeB.id ≠ payloadCross.id ∧
      payloadCross.email = storeA.email ∧ storeA.id ≠ payloadCross.id ∧
      (upsertStore (some seller) (some payloadCross) [storeA, storeB]).1
        = Except.error "A store with the same email already exists" ∧
      "A store with the same email already exists"
        ≠ "A store with the same name already exists" :=
  ⟨rfl, by decide, rfl, by decide, rfl, by decide⟩

/-- C3 (amended): when `upsertStore` / `upsertCategory` reports a
conflict, the named field is the highest-priority colliding field of the
single record returned by `findFirst` (the first conflicting record in
collection order); collisions of other records are not consulted. -/
theorem upsert_conflict_first_record_priority :
    (∀ (u : ClerkUser) (i : UpsertStoreInput) (coll : List Store) (ex : Store),
      u.role = "SELLER" → findFirst (storeConflictWith i) coll = some ex →
      ∃ f : StoreField, StoreField.getS f ex = StoreField.getI f i ∧
        (upsertStore (some u) (some i) coll).1 = Except.error (StoreField.msg f) ∧
        ∀ g : StoreField, StoreField.rank g < StoreField.rank f →
          StoreField.getS g ex ≠ StoreField.getI g i) ∧
    (∀ (u : ClerkUser) (c : Category) (coll : List Category) (ex : Category),
      u.role = "ADMIN" → findFirst (categoryConflictWith c) coll = some ex →
      ∃ f : CategoryField, CategoryField.get f ex = CategoryField.get f c ∧
        (upsertCategory (some u) (some c) coll).1
          = Except.error (CategoryField.msg f) ∧
        ∀ g : CategoryField, CategoryField.rank g < CategoryField.rank f →
          CategoryField.get g ex ≠ CategoryField.get g c) := by
  constructor
  · intro u i coll ex hrole hfind
    have hresult : (upsertStore (some u) (some i) coll).1
        = Except.error (storeConflictMessage ex i) := by
      simp [upsertStore, hrole, hfind]
    have hor := (findFirst_some hfind).2.1
    by_cases h1 : ex.name = i.name
    · refine ⟨StoreField.name, h1, ?_, ?_⟩
      · rw [hresult]
        have : storeConflictMessage ex i = StoreField.msg StoreField.name := by
          simp [storeConflictMessage, StoreField.msg, h1]
        rw [this]
      · intro g hg
        exact absurd hg (by cases g <;> simp [StoreField.rank])
    · by_cases h2 : ex.email = i.email
      · refine ⟨StoreField.email, h2, ?_, ?_⟩
        · rw [hresult]
          have : storeConflictMessage ex i = StoreField.msg StoreField.email := by
            simp [storeConflictMessage, StoreField.msg, h1, h2]
          rw [this]
        · intro g hg
          cases g
          · exact h1
          · exact absurd hg (by simp [StoreField.rank])
          · exact absurd hg (by simp [StoreField.rank])
          · exact absurd hg (by simp [StoreField.rank])
      · by_cases h3 : ex.phone = i.phone
        · refine ⟨StoreField.phone, h3, ?_, ?_⟩
          · rw [hresult]
            have : storeConflictMessage ex i = StoreField.msg StoreField.phone := by
              simp [storeConflictMessage, StoreField.msg, h1, h2, h3]
            rw [this]
          · intro g hg
            cases g
            · exact h1
            · exact h2
            · exact absurd hg (by simp [StoreField.rank])
            · exact absurd hg (by simp [StoreField.rank])
        · have h4 : ex.url = i.url := by
            rcases hor with h | h | h | h
            · exact absurd h h1
            · exact absurd h h2
            · exact absurd h h3
            · exact h
          refine ⟨StoreField.url, h4, ?_, ?_⟩
          · rw [hresult]
            have : storeConflictMessage ex i = StoreField.msg StoreField.url := by
              simp [storeConflictMessage, StoreField.msg, h1, h2, h3, h4]
            rw [this]
          · intro g hg
            cases g
            · exact h1
            · exact h2
            · exact h3
            · exact absurd hg (by simp [StoreField.rank])
  · intro u c coll ex hrole hfind
    have hresult : (upsertCategory (some u) (some c) coll).1
        = Except.error (categoryConflictMessage ex c) := by
      simp [upsertCategory, hrole, hfind]
    have hor := (findFirst_some hfind).2.1
    by_cases h1 : ex.name = c.name
    · refine ⟨CategoryField.name, h1, ?_, ?_⟩
      · rw [hresult]
        have : categoryConflictMessage ex c = CategoryField.msg CategoryField.name := by
          simp [categoryConflictMessage, CategoryField.msg, h1]
        rw [this]
      · intro g hg
        exact absurd hg (by cases g <;> simp [CategoryField.rank])
    · have h2 : ex.url = c.url := by
        rcases hor with h | h
        · exact absurd h h1
        · exact h
      refine ⟨CategoryField.url, h2, ?_, ?_⟩
      · rw [hresult]
        have : categoryConflictMessage ex c = CategoryField.msg CategoryField.url := by
          simp [categoryConflictMessage, CategoryField.msg, h1, h2]
        rw [this]
      · intro g hg
        cases g
        · exact h1
        · exact absurd hg (by simp [CategoryField.rank])

theorem upsert_conflict_first_record_priority_witness :
    (∃ f : StoreField,
      StoreField.getS f storeA = StoreField.getI f payloadCross ∧
        (upsertStore (some seller) (some payloadCross) [storeA, storeB]).1
          = Except.error (StoreField.msg f) ∧
        ∀ g : StoreField, StoreField.rank g < StoreField.rank f →
          StoreField.getS g storeA ≠ StoreField.getI g payloadCross) ∧
    (∃ f : CategoryField,
      CategoryField.get f catA = CategoryField.get f catBTakesAUrl ∧
        (upsertCategory (some adminUser) (some catBTakesAUrl) [catA, catB]).1
          = Except.error (CategoryField.msg f) ∧
        ∀ g : CategoryField, CategoryField.rank g < CategoryField.rank f →
          CategoryField.get g catA ≠ CategoryField.get g catBTakesAUrl) :=
  ⟨upsert_conflict_first_record_priority.1 seller payloadCross [storeA, storeB]
      storeA rfl rfl,
   upsert_conflict_first_record_priority.2 adminUser catBTakesAUrl [catA, catB]
      catA rfl rfl⟩

/-- C7: on a well-formed collection, upserting a persisted record's own id
with its own unmodified unique-field values never raises a conflict error
(the record is excluded from its own uniqueness check), for stores and
categories alike. -/
theorem upsert_self_update_no_conflict :
    (∀ (u : ClerkUser) (i : UpsertStoreInput) (coll : List Store) (r : Store),
      u.role = "SELLER" → StoreWf coll → r ∈ coll →
      i.id = r.id → i.name = r.name → i.email = r.email → i.phone = r.phone →
      i.url = r.url →
      ∃ rec, (upsertStore (some u) (some i) coll).1 = Except.ok rec) ∧
    (∀ (u : ClerkUser) (c : Category) (coll : List Category) (r : Category),
      u.role = "ADMIN" → CategoryWf coll → r ∈ coll →
      c.id = r.id → c.name = r.name → c.url = r.url →
      ∃ rec, (upsertCategory (some u) (some c) coll).1 = Except.ok rec) := by
  constructor
  · intro u i coll r hrole hwf hr hid hname hemail hphone hurl
    have hf : findFirst (storeConflictWith i) coll = none := by
      apply findFirst_eq_none.mpr
      intro x hx hconf
      rcases hconf with ⟨hor, hxid⟩
      have hxr : x.id ≠ r.id := by rw [← hid]; exact hxid
      have hdist := hwf.2 x hx r hr hxr
      rcases hor with h | h | h | h
      · exact hdist.1 (by rw [h, hname])
      · exact hdist.2.1 (by rw [h, hemail])
      · exact hdist.2.2.1 (by rw [h, hphone])
      · exact hdist.2.2.2 (by rw [h, hurl])
    exact ⟨(storeDbUpsert coll i u).2, by simp [upsertStore, hrole, hf]⟩
  · intro u c coll r hrole hwf hr hid hname hurl
    have hf : findFirst (categoryConflictWith c) coll = none := by
      apply findFirst_eq_none.mpr
      intro x hx hconf
      rcases hconf with ⟨hor, hxid⟩
      have hxr : x.id ≠ r.id := by rw [← hid]; exact hxid
      have hdist := hwf.2 x hx r hr hxr
      rcases hor with h | h
      · exact hdist.1 (by rw [h, hname])
      · exact hdist.2 (by rw [h, hurl])
    exact ⟨(categoryDbUpsert coll c).2, by simp [upsertCategory, hrole, hf]⟩

theorem upsert_self_update_no_conflict_witness :
    (∃ rec, (upsertStore (some seller) (some payloadSelfA) [storeA, storeB]).1
        = Except.ok rec) ∧
      (∃ rec, (upsertCategory (some adminUser) (some catA) [catA, catB]).1
        = Except.ok rec) :=
  ⟨upsert_self_update_no_conflict.1 seller payloadSelfA [storeA, storeB] storeA
      rfl (by decide) (by decide) rfl rfl rfl rfl rfl,
   upsert_self_update_no_conflict.2 adminUser catA [catA, catB] catA
      rfl (by decide) (by decide) rfl rfl rfl⟩

/-- C10: whenever `upsertStore` or `upsertCategory` raises any error, the
persisted collection after the call is exactly the collection before it:
the single write is the last step and is reached only after every check
passed. -/
theorem upsert_error_leaves_state_unchanged :
    (∀ (u : Option ClerkUser) (i : Option UpsertStoreInput) (coll : List Store)
        (e : String),
      (upsertStore u i coll).1 = Except.error e → (upsertStore u i coll).2 = coll) ∧
    (∀ (u : Option ClerkUser) (c : Option Category) (coll : List Category)
        (e : String),
      (upsertCategory u c coll).1 = Except.error e →
        (upsertCategory u c coll).2 = coll) := by
  constructor
  · intro u i coll e h
    cases u with
    | none => rfl
    | some u' =>
      by_cases hrole : u'.role = "SELLER"
      · cases i with
        | none => simp [upsertStore, hrole]
        | some s =>
          cases hf : findFirst (storeConflictWith s) coll with
          | some ex => simp [upsertStore, hrole, hf]
          | none => simp [upsertStore, hrole, hf] at h
      · simp [upsertStore, hrole]
  · intro u c coll e h
    cases u with
    | none => rfl
    | some u' =>
      by_cases hrole : u'.role = "ADMIN"
      · cases c with
        | none => simp [upsertCategory, hrole]
        | some c' =>
          cases hf : findFirst (categoryConflictWith c') coll with
          | some ex => simp [upsertCategory, hrole, hf]
          | none => simp [upsertCategory, hrole, hf] at h
      · simp [upsertCategory, hrole]

/-- C2: when the optional `status` and `featured` fields of the input are
omitted, the update path of `upsertStore` overwrites the persisted
record's `status` with `PENDING` and `featured` with `false`, whatever
values the record held before. -/
theorem upsertStore_update_overwrites_status_featured
    (u : ClerkUser) (i : UpsertStoreInput) (coll : List Store) (rec : Store)
    (hstatus : i.status = none) (hfeat : i.featured = none)
    (hok : (upsertStore (some u) (some i) coll).1 = Except.ok rec)
    (hexists : ∃ r ∈ coll, r.id = i.id) :
    ∀ x ∈ (upsertStore (some u) (some i) coll).2, x.id = i.id →
      x.status = StoreStatus.PENDING ∧ x.featured = false := by
  by_cases hrole : u.role = "SELLER"
  · cases hf : findFirst (storeConflictWith i) coll with
    | some ex => simp [upsertStore, hrole, hf] at hok
    | none =>
      have hpost : (upsertStore (some u) (some i) coll).2 = (storeDbUpsert coll i u).1 := by
        simp [upsertStore, hrole, hf]
      rw [hpost]
      cases hid : findFirst (fun r : Store => r.id = i.id) coll with
      | none =>
        rcases hexists with ⟨r, hr, hrid⟩
        exact absurd hrid (findFirst_eq_none.mp hid r hr)
      | some r0 =>
        intro x hx hxid
        simp only [storeDbUpsert, hid, List.mem_map] at hx
        rcases hx with ⟨a, ha, hax⟩
        by_cases haid : a.id = i.id
        · rw [if_pos haid] at hax
          subst hax
          simp [Store.applyUpdate, mkStoreData, hstatus, hfeat]
        · rw [if_neg haid] at hax
          subst hax
          exact absurd hxid haid
  · simp [upsertStore, hrole] at hok

theorem upsertStore_update_overwrites_status_featured_witness :
    (Store.applyUpdate storeA (mkStoreData payloadSelfA)).status = StoreStatus.PENDING ∧
      (Store.applyUpdate storeA (mkStoreData payloadSelfA)).featured = false :=
  upsertStore_update_overwrites_status_featured seller payloadSelfA [storeA]
    (Store.applyUpdate storeA (mkStoreData payloadSelfA)) rfl rfl rfl
    ⟨storeA, by simp, rfl⟩
    (Store.applyUpdate storeA (mkStoreData payloadSelfA)) (by decide) rfl

/-- C9: a passing upsert with an id absent from the collection appends a
new record with that id (count + 1); with an id already present it adds no
record and replaces the stored record's fields wholesale with the
payload's values. -/
theorem upsert_create_update_paths :
    (∀ (u : ClerkUser) (i : UpsertStoreInput) (coll : List Store) (rec : Store),
      (upsertStore (some u) (some i) coll).1 = Except.ok rec →
      ((∀ r ∈ coll, r.id ≠ i.id) →
        (upsertStore (some u) (some i) coll).2.length = coll.length + 1 ∧
          rec ∈ (upsertStore (some u) (some i) coll).2 ∧ rec.id = i.id) ∧
      ((∃ r ∈ coll, r.id = i.id) →
        (upsertStore (some u) (some i) coll).2.length = coll.length ∧
          ∀ x ∈ (upsertStore (some u) (some i) coll).2, x.id = i.id →
            x.name = i.name ∧ x.description = i.description ∧ x.email = i.email ∧
              x.phone = i.phone ∧ x.url = i.url ∧ x.logo = i.logo ∧
              x.cover = i.cover ∧ x.featured = i.featured.getD false ∧
              x.status = i.status.getD StoreStatus.PENDING)) ∧
    (∀ (u : ClerkUser) (c : Category) (coll : List Category) (rec : Category),
      (upsertCategory (some u) (some c) coll).1 = Except.ok rec →
      ((∀ r ∈ coll, r.id ≠ c.id) →
        (upsertCategory (some u) (some c) coll).2.length = coll.length + 1 ∧
          rec ∈ (upsertCategory (some u) (some c) coll).2 ∧ rec = c) ∧
      ((∃ r ∈ coll, r.id = c.id) →
        (upsertCategory (some u) (some c) coll).2.length = coll.length ∧
          ∀ x ∈ (upsertCategory (some u) (some c) coll).2, x.id = c.id → x = c)) := by
  constructor
  · intro u i coll rec hok
    by_cases hrole : u.role = "SELLER"
    · cases hf : findFirst (storeConflictWith i) coll with
      | some ex => simp [upsertStore, hrole, hf] at hok
      | none =>
        have hpost : (upsertStore (some u) (some i) coll).2 = (storeDbUpsert coll i u).1 := by
          simp [upsertStore, hrole, hf]
        have hrec : rec = (storeDbUpsert coll i u).2 := by
          simp [upsertStore, hrole, hf] at hok
          exact hok.symm
        constructor
        · intro habsent
          have hid : findFirst (fun r : Store => r.id = i.id) coll = none :=
            findFirst_eq_none.mpr habsent
          rw [hpost, hrec]
          simp [storeDbUpsert, hid, mkStoreCreate]
        · intro hexists
          cases hid : findFirst (fun r : Store => r.id = i.id) coll with
          | none =>
            rcases hexists with ⟨r, hr, hrid⟩
            exact absurd hrid (findFirst_eq_none.mp hid r hr)
          | some r0 =>
            rw [hpost]
            constructor
            · simp [storeDbUpsert, hid]
            · intro x hx hxid
              simp only [storeDbUpsert, hid, List.mem_map] at hx
              rcases hx with ⟨a, ha, hax⟩
              by_cases haid : a.id = i.id
              · rw [if_pos haid] at hax
                subst hax
                simp [Store.applyUpdate, mkStoreData]
              · rw [if_neg haid] at hax
                subst hax
                exact absurd hxid haid
    · simp [upsertStore, hrole] at hok
  · intro u c coll rec hok
    by_cases hrole : u.role = "ADMIN"
    · cases hf : findFirst (categoryConflictWith c) coll with
      | some ex => simp [upsertCategory, hrole, hf] at hok
      | none =>
        have hpost : (upsertCategory (some u) (some c) coll).2 = (categoryDbUpsert coll c).1 := by
          simp [upsertCategory, hrole, hf]
        have hrec : rec = (categoryDbUpsert coll c).2 := by
          simp [upsertCategory, hrole, hf] at hok
          exact hok.symm
        constructor
        · intro habsent
          have hid : findFirst (fun r : Category => r.id = c.id) coll = none :=
            findFirst_eq_none.mpr habsent
          rw [hpost, hrec]
          simp [categoryDbUpsert, hid]
        · intro hexists
          cases hid : findFirst (fun r : Category => r.id = c.id) coll with
          | none =>
            rcases hexists with ⟨r, hr, hrid⟩
            exact absurd hrid (findFirst_eq_none.mp hid r hr)
          | some r0 =>
            rw [hpost]
            constructor
            · simp [categoryDbUpsert, hid]
            · intro x hx hxid
              simp only [categoryDbUpsert, hid, List.mem_map] at hx
              rcases hx with ⟨a, ha, hax⟩
              by_cases haid : a.id = c.id
              · rw [if_pos haid] at hax
                exact hax.symm
              · rw [if_neg haid] at hax
                subst hax
                exact absurd hxid haid
    · simp [upsertCategory, hrole] at hok

theorem upsert_create_update_paths_witness :
    ((upsertStore (some seller) (some payloadNew) [storeA]).2.length
        = [storeA].length + 1 ∧
      mkStoreCreate payloadNew seller
          ∈ (upsertStore (some seller) (some payloadNew) [storeA]).2 ∧
      (mkStoreCreate payloadNew seller).id = payloadNew.id) ∧
    ((upsertCategory (some adminUser) (some catAEdit) [catA]).2.length
        = [catA].length ∧
      catAEdit = catAEdit) :=
  ⟨(upsert_create_update_paths.1 seller payloadNew [storeA]
      (mkStoreCreate payloadNew seller) rfl).1 (by decide),
   ⟨((upsert_create_update_paths.2 adminUser catAEdit [catA] catAEdit rfl).2
      ⟨catA, by simp, rfl⟩).1,
    ((upsert_create_update_paths.2 adminUser catAEdit [catA] catAEdit rfl).2
      ⟨catA, by simp, rfl⟩).2 catAEdit (by decide) rfl⟩⟩

theorem upsert_error_leaves_state_unchanged_witness :
    (upsertStore (some seller) (some payloadBTakesAName) [storeA, storeB]).2
        = [storeA, storeB] ∧
      (upsertCategory none (some catA) [catB]).2 = [catB] :=
  ⟨upsert_error_leaves_state_unchanged.1 (some seller) (some payloadBTakesAName)
      [storeA, storeB] "A store with the same name already exists" rfl,
   upsert_error_leaves_state_unchanged.2 none (some catA) [catB]
      "Unauthenticated." rfl⟩

end MVEC
